import Mathlib

/-!
# Verification of the brain-mcp memory core

Shallow embedding of the brain-mcp repository's core modules
(`src/long-term-memory.ts`, `src/thinking-process.ts`, `src/storage.ts`)
and proofs about the claims of its specification.

JavaScript strings are modelled as `List Char`; JavaScript `Map`s
(which iterate in insertion order) are modelled as association lists
`List (Str × α)` with JS `Map.set` / `Map.delete` semantics; the
non-deterministic inputs of the code (`uuidv4()` results,
`new Date().toISOString()` / `Date.now()` readings) are passed to the
embedded operations as explicit arguments.  `MCPResponse` values are
modelled by `MCPRes`.
-/

/-- JavaScript strings, modelled as their sequence of characters. -/
abbrev Str : Type := List Char

/-- Conversion from Lean string literals to the model's strings. -/
def str (s : String) : Str := s.data

/-- Model of JavaScript `String.prototype.trim()` (drop leading and
trailing whitespace). -/
def trimStr (s : Str) : Str :=
  ((List.dropWhile Char.isWhitespace s).reverse.dropWhile Char.isWhitespace).reverse

/-- Model of JavaScript `String.prototype.toLowerCase()`. -/
def lowerStr (s : Str) : Str := s.map Char.toLower

/-- Model of JavaScript `String.prototype.startsWith` used to build
substring containment. -/
def strStartsWith : Str → Str → Bool
  | _, [] => true
  | [], _ :: _ => false
  | a :: s, b :: p => a = b && strStartsWith s p

/-- Model of JavaScript `String.prototype.includes` (literal substring
containment). -/
def strIncludes : Str → Str → Bool
  | [], pat => List.isEmpty pat
  | s@(_ :: rest), pat => strStartsWith s pat || strIncludes rest pat

/-- Model of JavaScript `String.prototype.substring(0, n)`. -/
def takeStr (s : Str) (n : Nat) : Str := s.take n

/-- Emptiness of a model string (JS `s.length === 0`). -/
def strIsEmpty (s : Str) : Bool := List.isEmpty s

/-! ## Insertion-ordered maps (JavaScript `Map`) -/

/-- Lookup in an insertion-ordered map (JS `Map.get`). -/
def mlookup {α : Type} : List (Str × α) → Str → Option α
  | [], _ => none
  | (k, v) :: rest, key => if k = key then some v else mlookup rest key

/-- Key membership (JS `Map.has`). -/
def mcontains {α : Type} (m : List (Str × α)) (k : Str) : Bool :=
  (mlookup m k).isSome

/-- JS `Map.set`: replace the entry in place if the key is present
(keeping its position in iteration order), otherwise append. -/
def mset {α : Type} : List (Str × α) → Str → α → List (Str × α)
  | [], key, v => [(key, v)]
  | (k, w) :: rest, key, v =>
    if k = key then (k, v) :: rest else (k, w) :: mset rest key v

/-- JS `Map.delete`: remove the entry with the given key. -/
def merase {α : Type} : List (Str × α) → Str → List (Str × α)
  | [], _ => []
  | (k, w) :: rest, key => if k = key then rest else (k, w) :: merase rest key

/-- Update every value of the map (used to model a JS `for ... of
map.values()` loop that mutates each object). -/
def mapVals {α : Type} (f : α → α) (m : List (Str × α)) : List (Str × α) :=
  m.map (fun p => (p.1, f p.2))

theorem mlookup_mset_self {α : Type} (m : List (Str × α)) (k : Str) (v : α) :
    mlookup (mset m k v) k = some v := by
  induction m with
  | nil => simp [mset, mlookup]
  | cons p rest ih =>
    obtain ⟨k', w⟩ := p
    by_cases h : k' = k <;> simp [mset, mlookup, h, ih]

theorem mlookup_mset_ne {α : Type} (m : List (Str × α)) (k k' : Str) (v : α)
    (h : k ≠ k') : mlookup (mset m k v) k' = mlookup m k' := by
  induction m with
  | nil => simp [mset, mlookup, h]
  | cons p rest ih =>
    obtain ⟨k₀, w⟩ := p
    by_cases h0 : k₀ = k
    · subst h0; simp [mset, mlookup, h]
    · simp [mset, mlookup, h0, ih]

theorem mlookup_mset {α : Type} (m : List (Str × α)) (k k' : Str) (v : α) :
    mlookup (mset m k v) k' = if k = k' then some v else mlookup m k' := by
  by_cases h : k = k'
  · subst h; simp [mlookup_mset_self]
  · simp [h, mlookup_mset_ne m k k' v h]

theorem mset_eq_append {α : Type} (m : List (Str × α)) (k : Str) (v : α)
    (h : mlookup m k = none) : mset m k v = m ++ [(k, v)] := by
  induction m with
  | nil => simp [mset]
  | cons p rest ih =>
    obtain ⟨k₀, w⟩ := p
    by_cases h0 : k₀ = k
    · subst h0; simp [mlookup] at h
    · simp [mlookup, h0] at h
      simp [mset, h0, ih h]

theorem mlookup_mapVals {α : Type} (f : α → α) (m : List (Str × α)) (k : Str) :
    mlookup (mapVals f m) k = (mlookup m k).map f := by
  induction m with
  | nil => simp [mapVals, mlookup]
  | cons p rest ih =>
    obtain ⟨k₀, w⟩ := p
    by_cases h0 : k₀ = k
    · simp [mapVals, mlookup, h0]
    · simpa [mapVals, mlookup, h0] using ih

theorem mlookup_merase_ne {α : Type} (m : List (Str × α)) (k k' : Str)
    (h : k ≠ k') : mlookup (merase m k) k' = mlookup m k' := by
  induction m with
  | nil => simp [merase]
  | cons p rest ih =>
    obtain ⟨k₀, w⟩ := p
    by_cases h0 : k₀ = k
    · subst h0; simp [merase, mlookup, h]
    · simp [merase, mlookup, h0, ih]

/-! ## Result type (`MCPResponse`) -/

/-- Model of the `MCPResponse` result shape: `{success: true, data}` or
`{success: false, error}`. -/
inductive MCPRes (α : Type) where
  | ok (data : α)
  | err (error : Str)
deriving Repr, DecidableEq

/-- `success` field of a response. -/
def MCPRes.success {α : Type} : MCPRes α → Bool
  | .ok _ => true
  | .err _ => false

/-! ## Data model (`src/types.ts` shapes used by the core) -/

/-- `LongTermMemoryMetadata`. -/
structure LongTermMemoryMetadata where
  createdAt : Str
  lastAccessed : Str
  accessCount : Nat
deriving Repr, DecidableEq

/-- `LongTermMemoryNode` (a memory-graph node). -/
structure MemoryNode where
  id : Str
  text : Str
  associations : List Str
  metadata : LongTermMemoryMetadata
deriving Repr, DecidableEq

/-- A `{id, text}` search result. -/
structure SearchResult where
  id : Str
  text : Str
deriving Repr, DecidableEq

/-- State of the `LongTermMemory` class: the node map (insertion
ordered) and the dirty flag. -/
structure LongTermMemory where
  nodes : List (Str × MemoryNode)
  isDirty : Bool
deriving Repr, DecidableEq

namespace LongTermMemory

/-- The `for (const assocId of associations)` existence-validation loop
of `add`/`update`: the first association id absent from the node map,
if any. -/
def firstUnknown (nodes : List (Str × MemoryNode)) : List Str → Option Str
  | [] => none
  | a :: rest => if mcontains nodes a then firstUnknown nodes rest else some a

/-- `LongTermMemory.add(text, associations)`.  `newId` is the
`uuidv4()` result and `now` the `new Date().toISOString()` reading. -/
def add (s : LongTermMemory) (newId now : Str) (text : Str)
    (associations : List Str) : MCPRes Str × LongTermMemory :=
  if strIsEmpty (trimStr text) then
    (.err (str "Memory text cannot be empty"), s)
  else
    match firstUnknown s.nodes associations with
    | some a => (.err (str "Associated node not found: " ++ a), s)
    | none =>
      let node : MemoryNode :=
        { id := newId, text := trimStr text, associations := associations,
          metadata := { createdAt := now, lastAccessed := now, accessCount := 0 } }
      (.ok newId, { nodes := mset s.nodes newId node, isDirty := true })

/-- The recursive `traverse` closure of `getAssociatedNodes`, carrying
the `visited` set and `result` list.  The budget argument is
`depth + 1 - currentDepth`; the source's `currentDepth > depth` early
return is the `0` case. -/
def dfsVisit (nodes : List (Str × MemoryNode)) (rootId : Str) :
    Nat → Str → List Str × List MemoryNode → List Str × List MemoryNode
  | 0, _, st => st
  | b + 1, currentId, st =>
    if currentId ∈ st.1 then st
    else
      let visited := st.1 ++ [currentId]
      match mlookup nodes currentId with
      | none => (visited, st.2)
      | some node =>
        let result := if currentId = rootId then st.2 else st.2 ++ [node]
        node.associations.foldl (fun acc a => dfsVisit nodes rootId b a acc)
          (visited, result)

/-- `getAssociatedNodes(id, depth)`: depth-limited depth-first
traversal from `id` over association edges. -/
def getAssociatedNodes (nodes : List (Str × MemoryNode)) (id : Str)
    (depth : Nat) : List MemoryNode :=
  (dfsVisit nodes id (depth + 1) id ([], [])).2

/-- `LongTermMemory.get(id, options)`: bumps access metadata, marks
dirty, and returns the node together with the depth-limited traversal
(depth `options.depth ?? 1`, capped at 3). -/
def get (s : LongTermMemory) (id now : Str) (depth : Option Nat) :
    MCPRes (MemoryNode × List MemoryNode) × LongTermMemory :=
  match mlookup s.nodes id with
  | none => (.err (str "Memory not found: " ++ id), s)
  | some node =>
    let node' := { node with metadata :=
      { node.metadata with
        lastAccessed := now
        accessCount := node.metadata.accessCount + 1 } }
    let nodes' := mset s.nodes id node'
    let d := min (depth.getD 1) 3
    let associations := getAssociatedNodes nodes' id d
    (.ok (node', associations), { nodes := nodes', isDirty := true })

/-- Whether a node matches the (already case-folded) search term. -/
def nodeMatches (caseSensitive : Bool) (term : Str) (node : MemoryNode) : Bool :=
  strIncludes (if caseSensitive then node.text else lowerStr node.text) term

/-- The `for (const node of this.nodes.values())` collection loop of
`search`, which breaks as soon as `results.length >= limit` right
after pushing a match. -/
def searchLoop (term : Str) (caseSensitive : Bool) (limit : Nat) :
    List (Str × MemoryNode) → List SearchResult → List SearchResult
  | [], acc => acc
  | (_, node) :: rest, acc =>
    if nodeMatches caseSensitive term node then
      let acc' := acc ++ [⟨node.id, node.text⟩]
      if limit ≤ acc'.length then acc' else searchLoop term caseSensitive limit rest acc'
    else searchLoop term caseSensitive limit rest acc

/-- `LongTermMemory.search(keyword, options)` with explicit
`limit = options.limit ?? 10` and `caseSensitive` arguments. -/
def search (s : LongTermMemory) (keyword : Str) (limit : Nat)
    (caseSensitive : Bool) : MCPRes (List SearchResult) × LongTermMemory :=
  if strIsEmpty (trimStr keyword) then
    (.err (str "Search keyword cannot be empty"), s)
  else
    let searchTerm := if caseSensitive then keyword else lowerStr keyword
    (.ok (searchLoop searchTerm caseSensitive limit s.nodes []), s)

/-- Second phase of `update`, after the in-place text mutation: the
association validation/replacement and the metadata bump.  `s1` is the
store after the (possible) text write and `node1` the node object as
mutated so far. -/
def updateAssocPhase (s1 : LongTermMemory) (node1 : MemoryNode) (id now : Str)
    (newAssociations : Option (List Str)) : MCPRes Unit × LongTermMemory :=
  match newAssociations with
  | some assocs =>
    match firstUnknown s1.nodes assocs with
    | some a => (.err (str "Associated node not found: " ++ a), s1)
    | none =>
      let node2 := { node1 with associations := assocs }
      let node3 := { node2 with metadata :=
        { node2.metadata with lastAccessed := now } }
      (.ok (), { nodes := mset s1.nodes id node3, isDirty := true })
  | none =>
    let node3 := { node1 with metadata :=
      { node1.metadata with lastAccessed := now } }
    (.ok (), { nodes := mset s1.nodes id node3, isDirty := true })

/-- `LongTermMemory.update(id, newText?, newAssociations?)`.  The
source mutates `node.text` in place before validating
`newAssociations`, so a failing association check leaves the text
change behind. -/
def update (s : LongTermMemory) (id now : Str) (newText : Option Str)
    (newAssociations : Option (List Str)) : MCPRes Unit × LongTermMemory :=
  match mlookup s.nodes id with
  | none => (.err (str "Memory not found: " ++ id), s)
  | some node =>
    match newText with
    | some t =>
      if strIsEmpty (trimStr t) then (.err (str "Memory text cannot be empty"), s)
      else
        let node1 := { node with text := trimStr t }
        updateAssocPhase { s with nodes := mset s.nodes id node1 } node1 id now
          newAssociations
    | none => updateAssocPhase s node id now newAssociations

/-- `LongTermMemory.delete(id)`: strips the id from every node's
associations via `indexOf`/`splice(index, 1)` — which removes only the
first occurrence — then removes the node. -/
def delete (s : LongTermMemory) (id : Str) : MCPRes Unit × LongTermMemory :=
  if mcontains s.nodes id then
    let nodes' := mapVals
      (fun n => { n with associations := n.associations.erase id }) s.nodes
    (.ok (), { nodes := merase nodes' id, isDirty := true })
  else (.err (str "Memory not found: " ++ id), s)

/-- `LongTermMemory.getAssociations(id)`: copy of the direct
association list, no metadata bump. -/
def getAssociations (s : LongTermMemory) (id : Str) :
    MCPRes (List Str) × LongTermMemory :=
  match mlookup s.nodes id with
  | none => (.err (str "Memory not found: " ++ id), s)
  | some node => (.ok node.associations, s)

/-- `LongTermMemory.loadNodes(nodes)`: replaces the whole store and
clears the dirty flag. -/
def loadNodes (_s : LongTermMemory) (entries : List (Str × MemoryNode)) :
    MCPRes Unit × LongTermMemory :=
  (.ok (), { nodes := entries, isDirty := false })

/-- `LongTermMemory.getCount()`. -/
def getCount (s : LongTermMemory) : Nat := s.nodes.length

/-- `LongTermMemory.checkIsDirty()`. -/
def checkIsDirty (s : LongTermMemory) : Bool := s.isDirty

/-- `LongTermMemory.markClean()`. -/
def markClean (s : LongTermMemory) : LongTermMemory := { s with isDirty := false }

/-- `LongTermMemory.getTotalAssociations()`. -/
def getTotalAssociations (s : LongTermMemory) : Nat :=
  (s.nodes.map (fun p => p.2.associations.length)).sum

end LongTermMemory

/-! ## Thinking process (`src/thinking-process.ts`) -/

/-- `ThoughtType`. -/
inductive ThoughtType where
  | observation | analysis | decision | action | reflection | hypothesis
deriving Repr, DecidableEq

/-- `ThoughtStatus`. -/
inductive ThoughtStatus where
  | active | completed | discarded | pending
deriving Repr, DecidableEq

/-- `ThoughtChain` status values. -/
inductive ChainStatus where
  | active | completed | paused
deriving Repr, DecidableEq

/-- `CognitiveMode`. -/
inductive CognitiveMode where
  | analytical | intuitive | creative | critical | metaCognitive
deriving Repr, DecidableEq

/-- The free-form `thought_metadata` record. -/
structure ThoughtMetadata where
  thinking_time : Nat
  complexity : Str
deriving Repr, DecidableEq

/-- `ThoughtNode`. -/
structure ThoughtNode where
  id : Str
  text : Str
  associations : List Str
  metadata : LongTermMemoryMetadata
  type : ThoughtType
  confidence : Rat
  status : ThoughtStatus
  parent_chain : Str
  previous_thought : Option Str
  next_thoughts : List Str
  reasoning_depth : Nat
  thought_metadata : ThoughtMetadata
deriving Repr, DecidableEq

/-- `ThoughtChain`. -/
structure ThoughtChain where
  id : Str
  goal : Str
  context : Option Str
  created_at : Str
  completed_at : Option Str
  status : ChainStatus
  thoughts : List Str
  branches : List Str
  cognitive_mode : CognitiveMode
deriving Repr, DecidableEq

/-- State of the `ThinkingProcess` class: the chain and thought maps,
the tracker-wide current cognitive mode, and the `LongTermMemory`
instance it holds a reference to. -/
structure ThinkingProcess where
  chains : List (Str × ThoughtChain)
  thoughts : List (Str × ThoughtNode)
  currentMode : CognitiveMode
  longTermMemory : LongTermMemory
deriving Repr, DecidableEq

/-- JS truthiness of an optional string argument (`undefined` and the
empty string are falsy). -/
def optTruthy : Option Str → Bool
  | none => false
  | some s => !strIsEmpty s

namespace ThinkingProcess

/-- `startThoughtProcess(goal, context?)`.  `chainId` is the
`uuidv4()` result, `now` the ISO timestamp. -/
def startThoughtProcess (s : ThinkingProcess) (chainId now goal : Str)
    (context : Option Str) : MCPRes Str × ThinkingProcess :=
  if strIsEmpty (trimStr goal) then (.err (str "Goal cannot be empty"), s)
  else
    let chain : ThoughtChain :=
      { id := chainId, goal := trimStr goal, context := context.map trimStr,
        created_at := now, completed_at := none, status := .active,
        thoughts := [], branches := [], cognitive_mode := s.currentMode }
    (.ok chainId, { s with chains := mset s.chains chainId chain })

/-- `addThought(chainId, thought, type, parentThoughtId?, confidence)`.
`thoughtId` is the `uuidv4()` result.  The source treats a falsy
`parentThoughtId` (absent or empty) as "no parent" in the existence
check, the depth computation and the parent update, but still stores
it verbatim in `previous_thought`. -/
def addThought (s : ThinkingProcess) (thoughtId now chainId thought : Str)
    (type : ThoughtType) (parentThoughtId : Option Str) (confidence : Rat) :
    MCPRes Str × ThinkingProcess :=
  match mlookup s.chains chainId with
  | none => (.err (str "Thought chain not found: " ++ chainId), s)
  | some chain =>
    if chain.status ≠ .active then
      (.err (str "Cannot add thoughts to a non-active chain"), s)
    else if strIsEmpty (trimStr thought) then
      (.err (str "Thought text cannot be empty"), s)
    else if confidence < 0 ∨ 1 < confidence then
      (.err (str "Confidence must be between 0 and 1"), s)
    else if optTruthy parentThoughtId ∧
        ¬ mcontains s.thoughts (parentThoughtId.getD []) then
      (.err (str "Parent thought not found: " ++ parentThoughtId.getD []), s)
    else
      let reasoning_depth :=
        if optTruthy parentThoughtId then
          ((mlookup s.thoughts (parentThoughtId.getD [])).map
            (fun p => p.reasoning_depth)).getD 0 + 1
        else 0
      let thoughtNode : ThoughtNode :=
        { id := thoughtId, text := trimStr thought, associations := [],
          metadata := { createdAt := now, lastAccessed := now, accessCount := 0 },
          type := type, confidence := confidence, status := .active,
          parent_chain := chainId, previous_thought := parentThoughtId,
          next_thoughts := [], reasoning_depth := reasoning_depth,
          thought_metadata := { thinking_time := 0, complexity := str "medium" } }
      let thoughts1 :=
        if optTruthy parentThoughtId then
          match mlookup s.thoughts (parentThoughtId.getD []) with
          | some parent =>
            mset s.thoughts (parentThoughtId.getD [])
              { parent with next_thoughts := parent.next_thoughts ++ [thoughtId] }
          | none => s.thoughts
        else s.thoughts
      let thoughts2 := mset thoughts1 thoughtId thoughtNode
      let chains' := mset s.chains chainId
        { chain with thoughts := chain.thoughts ++ [thoughtId] }
      (.ok thoughtId, { s with chains := chains', thoughts := thoughts2 })

/-- `branchThought(thoughtId, newThought, type, confidence)`.
`branchChainId` and `newThoughtId` are the two `uuidv4()` results (the
branch chain's id and the inner `addThought`'s id).  The new chain is
created and registered under the source chain's `branches` before the
inner `addThought` runs, so an inner validation failure leaves them
behind.  The `chain.branches.push` mutates the chain object fetched
before `chains.set(branchChainId, …)`, which is lost if the two keys
collide. -/
def branchThought (s : ThinkingProcess)
    (branchChainId newThoughtId now thoughtId newThought : Str)
    (type : ThoughtType) (confidence : Rat) : MCPRes Str × ThinkingProcess :=
  match mlookup s.thoughts thoughtId with
  | none => (.err (str "Thought not found: " ++ thoughtId), s)
  | some originalThought =>
    match mlookup s.chains originalThought.parent_chain with
    | none => (.err (str "Parent chain not found"), s)
    | some chain =>
      let branchChain : ThoughtChain :=
        { id := branchChainId,
          goal := str "Branch from: " ++ takeStr originalThought.text 50 ++ str "...",
          context := some chain.goal, created_at := now, completed_at := none,
          status := .active, thoughts := [], branches := [],
          cognitive_mode := s.currentMode }
      let chains1 := mset s.chains branchChainId branchChain
      let chains2 :=
        if originalThought.parent_chain = branchChainId then chains1
        else mset chains1 originalThought.parent_chain
          { chain with branches := chain.branches ++ [branchChainId] }
      let s1 := { s with chains := chains2 }
      -- the source returns the inner result on failure and re-wraps the
      -- same data on success, so the response is the inner response
      addThought s1 newThoughtId now branchChainId newThought type none confidence

/-- `evaluateThought(thoughtId, confidence, reasoning)`: overwrites the
confidence, bumps access metadata and, when `reasoning` is truthy,
appends a `reasoning:<text>` marker to the thought's associations. -/
def evaluateThought (s : ThinkingProcess) (now thoughtId : Str)
    (confidence : Rat) (reasoning : Str) : MCPRes Unit × ThinkingProcess :=
  match mlookup s.thoughts thoughtId with
  | none => (.err (str "Thought not found: " ++ thoughtId), s)
  | some thought =>
    if confidence < 0 ∨ 1 < confidence then
      (.err (str "Confidence must be between 0 and 1"), s)
    else
      let t1 := { thought with
        confidence := confidence
        metadata := { thought.metadata with
          lastAccessed := now
          accessCount := thought.metadata.accessCount + 1 } }
      let t2 :=
        if strIsEmpty reasoning then t1
        else { t1 with associations :=
          t1.associations ++ [str "reasoning:" ++ reasoning] }
      (.ok (), { s with thoughts := mset s.thoughts thoughtId t2 })

/-- The `for (const thoughtId of chain.thoughts)` loop of
`completeThoughtProcess` that flips the chain's `active` thoughts to
`completed`. -/
def flipCompleted (thoughts : List (Str × ThoughtNode)) :
    List Str → List (Str × ThoughtNode)
  | [] => thoughts
  | tid :: rest =>
    let thoughts' :=
      match mlookup thoughts tid with
      | some t =>
        if t.status = .active then mset thoughts tid { t with status := .completed }
        else thoughts
      | none => thoughts
    flipCompleted thoughts' rest

/-- `completeThoughtProcess(chainId, conclusion)`.  `summaryId` is the
`uuidv4()` the inner `LongTermMemory.add` call would allocate for the
summary node; the result of that call is ignored by the source. -/
def completeThoughtProcess (s : ThinkingProcess) (now summaryId chainId conclusion : Str) :
    MCPRes Unit × ThinkingProcess :=
  match mlookup s.chains chainId with
  | none => (.err (str "Thought chain not found: " ++ chainId), s)
  | some chain =>
    if strIsEmpty (trimStr conclusion) then
      (.err (str "Conclusion cannot be empty"), s)
    else
      let chains' := mset s.chains chainId
        { chain with status := .completed, completed_at := some now }
      let thoughts' := flipCompleted s.thoughts chain.thoughts
      let memoryText :=
        str "[Thought Chain] " ++ chain.goal ++ str "\nConclusion: " ++ conclusion
      let thoughtIds := chain.thoughts.map (fun tid => str "thought:" ++ tid)
      let ltm' := (s.longTermMemory.add summaryId now memoryText thoughtIds).2
      (.ok (), { s with chains := chains', thoughts := thoughts',
                        longTermMemory := ltm' })

/-- `pauseThinking(chainId, reason)`: no status guard; appends a pause
annotation to the chain's context. -/
def pauseThinking (s : ThinkingProcess) (chainId reason : Str) :
    MCPRes Unit × ThinkingProcess :=
  match mlookup s.chains chainId with
  | none => (.err (str "Thought chain not found: " ++ chainId), s)
  | some chain =>
    let chain' := { chain with
      status := .paused
      context := some ((chain.context.getD []) ++ str "\n[Paused: " ++ reason ++ str "]") }
    (.ok (), { s with chains := mset s.chains chainId chain' })

/-- `resumeThinking(chainId)`: only a `paused` chain can be resumed. -/
def resumeThinking (s : ThinkingProcess) (chainId : Str) :
    MCPRes Unit × ThinkingProcess :=
  match mlookup s.chains chainId with
  | none => (.err (str "Thought chain not found: " ++ chainId), s)
  | some chain =>
    if chain.status ≠ .paused then (.err (str "Can only resume paused chains"), s)
    else (.ok (), { s with chains := mset s.chains chainId { chain with status := .active } })

/-- `switchCognitiveMode(mode, chainId?)`: updates the tracker's global
mode first, then (for a truthy `chainId`) the chain's own mode. -/
def switchCognitiveMode (s : ThinkingProcess) (mode : CognitiveMode)
    (chainId : Option Str) : MCPRes Unit × ThinkingProcess :=
  let s1 := { s with currentMode := mode }
  if optTruthy chainId then
    match mlookup s1.chains (chainId.getD []) with
    | none => (.err (str "Thought chain not found: " ++ chainId.getD []), s1)
    | some chain =>
      let chain' := { chain with cognitive_mode := mode }
      (.ok (), { s1 with chains := mset s1.chains (chainId.getD []) chain' })
  else (.ok (), s1)

end ThinkingProcess

/-! ## Uniform operation type for the tracker's mutating API

Used to state temporal properties quantified over every public
mutating `ThinkingProcess` operation. -/

/-- One call to a mutating public operation of `ThinkingProcess`,
with its non-deterministic inputs (generated uuids, timestamps)
recorded as constructor arguments. -/
inductive TPOp where
  | startOp (chainId now goal : Str) (context : Option Str)
  | addThoughtOp (thoughtId now chainId thought : Str) (type : ThoughtType)
      (parentThoughtId : Option Str) (confidence : Rat)
  | branchOp (branchChainId newThoughtId now thoughtId newThought : Str)
      (type : ThoughtType) (confidence : Rat)
  | evaluateOp (now thoughtId : Str) (confidence : Rat) (reasoning : Str)
  | completeOp (now summaryId chainId conclusion : Str)
  | pauseOp (chainId reason : Str)
  | resumeOp (chainId : Str)
  | switchModeOp (mode : CognitiveMode) (chainId : Option Str)
deriving Repr, DecidableEq

/-- Apply an operation to the tracker state (discarding the response). -/
def TPOp.apply (s : ThinkingProcess) : TPOp → ThinkingProcess
  | .startOp chainId now goal context =>
    (s.startThoughtProcess chainId now goal context).2
  | .addThoughtOp thoughtId now chainId thought type parentThoughtId confidence =>
    (s.addThought thoughtId now chainId thought type parentThoughtId confidence).2
  | .branchOp branchChainId newThoughtId now thoughtId newThought type confidence =>
    (s.branchThought branchChainId newThoughtId now thoughtId newThought type confidence).2
  | .evaluateOp now thoughtId confidence reasoning =>
    (s.evaluateThought now thoughtId confidence reasoning).2
  | .completeOp now summaryId chainId conclusion =>
    (s.completeThoughtProcess now summaryId chainId conclusion).2
  | .pauseOp chainId reason => (s.pauseThinking chainId reason).2
  | .resumeOp chainId => (s.resumeThinking chainId).2
  | .switchModeOp mode chainId => (s.switchCognitiveMode mode chainId).2

/-- The uuid arguments an operation would obtain from `uuidv4()` are
fresh for the chain map (always true of real uuids).  Only the two
chain-creating operations need this. -/
def TPOp.chainIdsFresh (s : ThinkingProcess) : TPOp → Prop
  | .startOp chainId _ _ _ => mcontains s.chains chainId = false
  | .branchOp branchChainId _ _ _ _ _ _ => mcontains s.chains branchChainId = false
  | _ => True

/-! ## Storage manager (`src/storage.ts`) -/

/-- The storage directory as seen by `StorageManager`: the primary
memory file, the backup file, and the lock file (represented by its
`mtimeMs` modification time, which is what `isLocked` consults). -/
structure FsState where
  memoryFile : Option Str
  backupFile : Option Str
  lockMtime : Option Nat
deriving Repr, DecidableEq

namespace StorageManager

/-- Five minutes in milliseconds, the lock staleness threshold. -/
def staleMs : Nat := 5 * 60 * 1000

/-- `isLocked()`: a missing lock file is "unlocked"; a lock older than
five minutes is removed as stale and reported "unlocked"; otherwise
"locked".  Returns the flag and the (possibly lock-cleared) state. -/
def isLocked (fs : FsState) (now : Nat) : Bool × FsState :=
  match fs.lockMtime with
  | none => (false, fs)
  | some m =>
    if now - m > staleMs then (false, { fs with lockMtime := none })
    else (true, fs)

/-- The body of `save` after the lock check passed: create the lock,
optionally back up the existing primary file, write the snapshot (or
fail), and remove the lock on either exit path (`finally`/`catch`). -/
def savePhase2 (fs1 : FsState) (now : Nat) (enableBackup : Bool) (dat : Str)
    (writeOk : Bool) : MCPRes Unit × FsState :=
  let fs2 := { fs1 with lockMtime := some now }
  let fs3 :=
    if enableBackup && fs2.memoryFile.isSome then
      { fs2 with backupFile := fs2.memoryFile }
    else fs2
  if writeOk then
    (.ok (), { fs3 with memoryFile := some dat, lockMtime := none })
  else
    (.err (str "Failed to save memory: write error"), { fs3 with lockMtime := none })

/-- `save(nodes)`.  `dat` is the serialized snapshot
(`JSON.stringify`), `now` the `Date.now()` reading, `writeOk` whether
the primary-file write succeeds (the `catch` path of the source). -/
def save (fs : FsState) (now : Nat) (enableBackup : Bool) (dat : Str)
    (writeOk : Bool) : MCPRes Unit × FsState :=
  let checked := isLocked fs now
  if checked.1 then
    (.err (str "Storage is locked by another process"), checked.2)
  else savePhase2 checked.2 now enableBackup dat writeOk

end StorageManager

/-! ## Specification-side definition for the traversal claim

The specification describes the set returned by `MemoryGraph.get` as
"the set of distinct nodes whose minimal association-hop distance from
the target is at least 1 and at most `depth`".  `ballN` computes the
ids within a given hop distance of a source id, following the spec's
words; it is compared against the source-derived traversal. -/

/-- Outgoing association edges of an id (a missing node has none). -/
def neighborIds (nodes : List (Str × MemoryNode)) (i : Str) : List Str :=
  match mlookup nodes i with
  | some n => n.associations
  | none => []

/-- `ballN nodes src d`: every id whose minimal association-hop
distance from `src` is at most `d` (with possible repetitions). -/
def ballN (nodes : List (Str × MemoryNode)) (src : Str) : Nat → List Str
  | 0 => [src]
  | d + 1 =>
    let prev := ballN nodes src d
    prev ++ prev.flatMap (neighborIds nodes)

/-! ## Helper lemmas -/

theorem mlookup_eq_none_of_mcontains_false {α : Type} {m : List (Str × α)}
    {k : Str} (h : mcontains m k = false) : mlookup m k = none := by
  unfold mcontains at h
  cases hm : mlookup m k with
  | none => rfl
  | some v => rw [hm] at h; simp at h

namespace LongTermMemory

theorem firstUnknown_eq_none {nodes : List (Str × MemoryNode)} {l : List Str}
    (h : ∀ a ∈ l, mcontains nodes a = true) : firstUnknown nodes l = none := by
  induction l with
  | nil => rfl
  | cons a rest ih =>
    have ha := h a (List.mem_cons_self a rest)
    simp only [firstUnknown, ha, if_true]
    exact ih (fun b hb => h b (List.mem_cons_of_mem a hb))

theorem firstUnknown_isSome {nodes : List (Str × MemoryNode)} {l : List Str}
    (h : ∃ a ∈ l, mcontains nodes a = false) :
    ∃ b, firstUnknown nodes l = some b := by
  induction l with
  | nil => simp at h
  | cons a rest ih =>
    by_cases ha : mcontains nodes a = true
    · simp only [firstUnknown, ha, if_true]
      apply ih
      obtain ⟨b, hb, hbc⟩ := h
      rcases List.mem_cons.1 hb with hba | hbr
      · subst hba; rw [ha] at hbc; cases hbc
      · exact ⟨b, hbr, hbc⟩
    · have : mcontains nodes a = false := by
        cases hv : mcontains nodes a
        · rfl
        · exact absurd hv ha
      exact ⟨a, by simp only [firstUnknown, this, Bool.false_eq_true, if_false]⟩

end LongTermMemory

/-- A string containing a non-whitespace character does not trim to the
empty string. -/
theorem strIsEmpty_trimStr_false {s : Str} {c : Char} (hc : c ∈ s)
    (hw : c.isWhitespace = false) : strIsEmpty (trimStr s) = false := by
  have h1 : c ∈ List.dropWhile Char.isWhitespace s := by
    have hsplit := List.takeWhile_append_dropWhile (p := Char.isWhitespace) (l := s)
    rw [← hsplit] at hc
    rcases List.mem_append.1 hc with htake | hdrop
    · have := List.mem_takeWhile_imp htake
      rw [hw] at this; cases this
    · exact hdrop
  have h2 : c ∈ (List.dropWhile Char.isWhitespace s).reverse := List.mem_reverse.2 h1
  have h3 : c ∈ (List.dropWhile Char.isWhitespace s).reverse.dropWhile Char.isWhitespace := by
    have hsplit := List.takeWhile_append_dropWhile (p := Char.isWhitespace)
      (l := (List.dropWhile Char.isWhitespace s).reverse)
    rw [← hsplit] at h2
    rcases List.mem_append.1 h2 with htake | hdrop
    · have := List.mem_takeWhile_imp htake
      rw [hw] at this; cases this
    · exact hdrop
  have h4 : c ∈ trimStr s := List.mem_reverse.2 h3
  have : trimStr s ≠ [] := List.ne_nil_of_mem h4
  cases he : trimStr s with
  | nil => exact absurd he this
  | cons x xs => simp [strIsEmpty, he]

/-! ## Claim C5 — `MemoryGraph.add` is all-or-nothing -/

/-- C5: for every graph state and association list containing at least
one unknown id, `add` returns failure and mutates nothing (node map,
node fields and dirty flag are exactly as before); conversely, with
text that does not trim to empty and all association ids known, it
inserts exactly one new node at a fresh id (appended at the end of the
insertion order) and returns that id. -/
theorem ltm_add_all_or_nothing
    (s : LongTermMemory) (newId now text : Str) (associations : List Str) :
    ((∃ a ∈ associations, mcontains s.nodes a = false) →
      (s.add newId now text associations).2 = s ∧
      ((s.add newId now text associations).1).success = false) ∧
    (strIsEmpty (trimStr text) = false →
      (∀ a ∈ associations, mcontains s.nodes a = true) →
      mcontains s.nodes newId = false →
      (s.add newId now text associations).1 = .ok newId ∧
      (s.add newId now text associations).2.nodes
        = s.nodes ++ [(newId,
            { id := newId, text := trimStr text, associations := associations,
              metadata :=
                { createdAt := now, lastAccessed := now, accessCount := 0 } })] ∧
      (s.add newId now text associations).2.isDirty = true) := by
  constructor
  · intro hbad
    obtain ⟨b, hb⟩ := LongTermMemory.firstUnknown_isSome hbad
    by_cases ht : strIsEmpty (trimStr text) = true
    · simp [LongTermMemory.add, ht, MCPRes.success]
    · have ht' : strIsEmpty (trimStr text) = false := by
        cases hv : strIsEmpty (trimStr text)
        · rfl
        · exact absurd hv ht
      simp [LongTermMemory.add, ht', hb, MCPRes.success]
  · intro ht hall hfresh
    have hnone := LongTermMemory.firstUnknown_eq_none hall
    have happ := mset_eq_append s.nodes newId
      ({ id := newId, text := trimStr text, associations := associations,
         metadata := { createdAt := now, lastAccessed := now, accessCount := 0 } }
        : MemoryNode)
      (mlookup_eq_none_of_mcontains_false hfresh)
    simp [LongTermMemory.add, ht, hnone, happ]

/-- Witness for C5 at a concrete input: inserting `"hi"` with no
associations into the empty store succeeds and appends one node, and
inserting with an unknown association id into the empty store fails
and leaves the store untouched. -/
theorem ltm_add_all_or_nothing_witness :
    (({ nodes := [], isDirty := false } : LongTermMemory).add
        (str "A") (str "t") (str "hi") []).1 = .ok (str "A") ∧
    (({ nodes := [], isDirty := false } : LongTermMemory).add
        (str "B") (str "t") (str "hi") [str "A"]).2
      = ({ nodes := [], isDirty := false } : LongTermMemory) := by
  constructor
  · exact (((ltm_add_all_or_nothing { nodes := [], isDirty := false }
      (str "A") (str "t") (str "hi") []).2 (by decide) (by decide) (by decide)).1)
  · exact ((ltm_add_all_or_nothing { nodes := [], isDirty := false }
      (str "B") (str "t") (str "hi") [str "A"]).1 ⟨str "A", by decide, by decide⟩).1

/-! ## Claim C1 — cascading delete versus duplicate associations -/

/-- C1 (failing-input evaluation): `add` accepts a duplicated
association (`B` associates `A` twice), and `delete("A")` then strips
only the first occurrence (`indexOf`/`splice(index, 1)`), leaving a
dangling `"A"` in the surviving node's associations although node `A`
itself is gone from the map.  This contradicts the claimed invariant
that after `delete(X)` the id `X` appears in no remaining node's
associations. -/
theorem delete_leaves_duplicate_association :
    ((((({ nodes := [], isDirty := false } : LongTermMemory).add
          (str "A") (str "t0") (str "first memory") []).2).add
          (str "B") (str "t1") (str "second memory") [str "A", str "A"]).1).success
        = true ∧
    (let s2 := (((({ nodes := [], isDirty := false } : LongTermMemory).add
          (str "A") (str "t0") (str "first memory") []).2).add
          (str "B") (str "t1") (str "second memory") [str "A", str "A"]).2
     (s2.delete (str "A")).1 = .ok () ∧
     mcontains (s2.delete (str "A")).2.nodes (str "A") = false ∧
     (mlookup (s2.delete (str "A")).2.nodes (str "B")).map
        (fun n => n.associations) = some [str "A"]) := by
  exact ⟨by decide, by decide, by decide, by decide⟩

/-! ## Claim C9 — dirty-flag discipline -/

/-- C9 (counterexample): the claim says `markClean()` is the only
operation that clears the dirty flag, but `loadNodes` also clears it:
after a successful `add` the flag is set, and a subsequent `loadNodes`
call (not `markClean`) clears it. -/
theorem loadNodes_clears_dirty_flag :
    ((({ nodes := [], isDirty := false } : LongTermMemory).add
        (str "A") (str "t") (str "hello") []).2).isDirty = true ∧
    ((((({ nodes := [], isDirty := false } : LongTermMemory).add
        (str "A") (str "t") (str "hello") []).2).loadNodes []).2).isDirty = false := by
  exact ⟨by decide, by decide⟩

/-- C9 (amended): every successful mutating operation (`add`, `get`,
`update`, `delete`) leaves the dirty flag set; `markClean` and
`loadNodes` are the only flag-clearing operations — every other
operation (including every failing call and the read-only `search` /
`getAssociations`) preserves a set flag. -/
theorem dirty_flag_discipline (s : LongTermMemory) :
    (∀ newId now text assoc,
      ((s.add newId now text assoc).1.success = true →
        (s.add newId now text assoc).2.isDirty = true) ∧
      (s.isDirty = true → (s.add newId now text assoc).2.isDirty = true)) ∧
    (∀ id now depth,
      ((s.get id now depth).1.success = true →
        (s.get id now depth).2.isDirty = true) ∧
      (s.isDirty = true → (s.get id now depth).2.isDirty = true)) ∧
    (∀ id now newText newAssoc,
      ((s.update id now newText newAssoc).1.success = true →
        (s.update id now newText newAssoc).2.isDirty = true) ∧
      (s.isDirty = true → (s.update id now newText newAssoc).2.isDirty = true)) ∧
    (∀ id,
      ((s.delete id).1.success = true → (s.delete id).2.isDirty = true) ∧
      (s.isDirty = true → (s.delete id).2.isDirty = true)) ∧
    (∀ keyword limit cs, (s.search keyword limit cs).2 = s) ∧
    (∀ id, (s.getAssociations id).2 = s) ∧
    (∀ entries, (s.loadNodes entries).2.isDirty = false) ∧
    (s.markClean.isDirty = false) := by
  refine ⟨?_, ?_, ?_, ?_, ?_, ?_, ?_, rfl⟩
  · intro newId now text assoc
    unfold LongTermMemory.add
    constructor
    · split
      · intro h; simp [MCPRes.success] at h
      · split
        · intro h; simp [MCPRes.success] at h
        · intro _; rfl
    · intro h
      split
      · exact h
      · split
        · exact h
        · rfl
  · intro id now depth
    unfold LongTermMemory.get
    constructor
    · split
      · intro h; simp [MCPRes.success] at h
      · intro _; rfl
    · intro h
      split
      · exact h
      · rfl
  · intro id now newText newAssoc
    unfold LongTermMemory.update LongTermMemory.updateAssocPhase
    constructor
    · split
      · intro h; simp [MCPRes.success] at h
      · split
        · split
          · intro h; simp [MCPRes.success] at h
          · dsimp only
            split
            · split
              · intro h; simp [MCPRes.success] at h
              · intro _; rfl
            · intro _; rfl
        · dsimp only
          split
          · split
            · intro h; simp [MCPRes.success] at h
            · intro _; rfl
          · intro _; rfl
    · intro h
      split
      · exact h
      · split
        · split
          · exact h
          · dsimp only
            split
            · split
              · exact h
              · rfl
            · rfl
        · dsimp only
          split
          · split
            · exact h
            · rfl
          · rfl
  · intro id
    unfold LongTermMemory.delete
    constructor
    · split
      · intro _; rfl
      · intro h; simp [MCPRes.success] at h
    · intro h
      split
      · rfl
      · exact h
  · intro keyword limit cs
    unfold LongTermMemory.search
    split
    · rfl
    · rfl
  · intro id
    unfold LongTermMemory.getAssociations
    split
    · rfl
    · rfl
  · intro entries
    rfl

/-- Witness for C9's amended theorem at concrete inputs: on a dirty
one-node store, a failing `add` (unknown association) preserves the
flag, and `markClean` clears it. -/
theorem dirty_flag_discipline_witness :
    (((({ nodes := [], isDirty := false } : LongTermMemory).add
        (str "A") (str "t") (str "hello") []).2).add
        (str "B") (str "t") (str "x") [str "missing"]).2.isDirty = true ∧
    ((({ nodes := [], isDirty := false } : LongTermMemory).add
        (str "A") (str "t") (str "hello") []).2).markClean.isDirty = false := by
  constructor
  · exact ((dirty_flag_discipline
      (({ nodes := [], isDirty := false } : LongTermMemory).add
        (str "A") (str "t") (str "hello") []).2).1
      (str "B") (str "t") (str "x") [str "missing"]).2 (by decide)
  · exact (dirty_flag_discipline
      (({ nodes := [], isDirty := false } : LongTermMemory).add
        (str "A") (str "t") (str "hello") []).2).2.2.2.2.2.2.2

/-! ## Claim C6 — search returns the first `limit` matches in insertion order -/

namespace LongTermMemory

theorem searchLoop_spec (term : Str) (cs : Bool) (limit : Nat) :
    ∀ (nodes : List (Str × MemoryNode)) (acc : List SearchResult),
    acc.length < limit →
    searchLoop term cs limit nodes acc =
      acc ++ (((nodes.map Prod.snd).filter (nodeMatches cs term)).map
        (fun n => SearchResult.mk n.id n.text)).take (limit - acc.length) := by
  intro nodes
  induction nodes with
  | nil => intro acc h; simp [searchLoop]
  | cons p rest ih =>
    intro acc h
    obtain ⟨k, node⟩ := p
    by_cases hm : nodeMatches cs term node = true
    · simp only [searchLoop, hm, if_true]
      by_cases hl : limit ≤ (acc ++ [(⟨node.id, node.text⟩ : SearchResult)]).length
      · have hlen : (acc ++ [(⟨node.id, node.text⟩ : SearchResult)]).length
            = acc.length + 1 := by simp
        have hlim : limit = acc.length + 1 := by omega
        have hone : limit - acc.length = 1 := by omega
        simp only [hl, if_true, List.map_cons, List.filter_cons, hm, hone,
          List.map, List.take]
      · have hlt : (acc ++ [(⟨node.id, node.text⟩ : SearchResult)]).length < limit := by
          omega
        simp only [hl, if_false]
        rw [ih _ hlt]
        have hsub : limit - (acc ++ [(⟨node.id, node.text⟩ : SearchResult)]).length
            = limit - acc.length - 1 := by simp; omega
        obtain ⟨m, hmeq⟩ : ∃ m, limit - acc.length = m + 1 :=
          ⟨limit - acc.length - 1, by omega⟩
        simp only [List.map_cons, List.filter_cons, hm, List.map, hsub, hmeq,
          List.take_succ_cons]
        simp [Nat.add_sub_cancel]
    · have hm' : nodeMatches cs term node = false := by
        cases hv : nodeMatches cs term node
        · rfl
        · exact absurd hv hm
      simp only [searchLoop, hm', Bool.false_eq_true, if_false]
      rw [ih _ h]
      simp [List.filter_cons, hm']

end LongTermMemory

/-- C6 (counterexample): the claim quantifies over every `limit` and
asserts the result has at most `limit` entries, but the source checks
`results.length >= limit` only after pushing a match, so `limit = 0`
on a store with a matching node returns one entry. -/
theorem search_limit_zero_returns_one :
    (((({ nodes := [], isDirty := false } : LongTermMemory).add
        (str "A") (str "t") (str "hello world") []).2).search
        (str "hello") 0 false).1
      = .ok [⟨str "A", str "hello world"⟩] := by decide

/-- C6 (amended): for every graph state, keyword that does not trim to
empty, case flag, and `limit ≥ 1`, `search` succeeds without touching
the store and returns exactly the first `limit` matches — the `{id,
text}` pairs of the nodes, in storage (insertion) order, whose text
contains the keyword as a literal substring, both sides lower-cased
unless `caseSensitive`. -/
theorem search_returns_first_matches (s : LongTermMemory) (keyword : Str)
    (limit : Nat) (cs : Bool)
    (hk : strIsEmpty (trimStr keyword) = false) (hl : 1 ≤ limit) :
    s.search keyword limit cs =
      (.ok ((((s.nodes.map Prod.snd).filter
          (LongTermMemory.nodeMatches cs (if cs then keyword else lowerStr keyword))).map
          (fun n => SearchResult.mk n.id n.text)).take limit), s) := by
  unfold LongTermMemory.search
  simp only [hk, Bool.false_eq_true, if_false]
  rw [LongTermMemory.searchLoop_spec _ _ _ _ [] (by simpa using hl)]
  simp

/-- Witness for C6's amended theorem: on a two-match store with
`limit = 1`, only the first match in insertion order is returned. -/
theorem search_returns_first_matches_witness :
    ((((({ nodes := [], isDirty := false } : LongTermMemory).add
          (str "A") (str "t") (str "hello world") []).2).add
          (str "B") (str "t") (str "say Hello") []).2).search
        (str "hello") 1 false
      = (.ok [⟨str "A", str "hello world"⟩],
         (((({ nodes := [], isDirty := false } : LongTermMemory).add
          (str "A") (str "t") (str "hello world") []).2).add
          (str "B") (str "t") (str "say Hello") []).2) := by
  have h := search_returns_first_matches
    (((({ nodes := [], isDirty := false } : LongTermMemory).add
        (str "A") (str "t") (str "hello world") []).2).add
        (str "B") (str "t") (str "say Hello") []).2
    (str "hello") 1 false (by decide) (by decide)
  rw [h]
  decide

/-! ## Claim C2 — depth-limited traversal -/

/-- Well-formedness of a node map: every stored node's `id` field
equals its key (true of every map built by `add`, which stores the
node under its own fresh id). -/
def WFNodes (nodes : List (Str × MemoryNode)) : Prop :=
  ∀ p ∈ nodes, (p.2).id = p.1

instance (nodes : List (Str × MemoryNode)) : Decidable (WFNodes nodes) :=
  inferInstanceAs (Decidable (∀ p ∈ nodes, (p.2).id = p.1))

theorem mlookup_id {nodes : List (Str × MemoryNode)} (hwf : WFNodes nodes)
    {k : Str} {n : MemoryNode} (h : mlookup nodes k = some n) : n.id = k := by
  induction nodes with
  | nil => simp [mlookup] at h
  | cons p rest ih =>
    obtain ⟨k₀, v⟩ := p
    by_cases h0 : k₀ = k
    · subst h0
      simp only [mlookup, if_pos rfl] at h
      cases h
      exact hwf (k₀, n) (List.mem_cons_self _ _)
    · simp only [mlookup, h0, if_false] at h
      exact ih (fun q hq => hwf q (List.mem_cons_of_mem _ hq)) h

theorem src_mem_ballN (nodes : List (Str × MemoryNode)) (src : Str) :
    ∀ d, src ∈ ballN nodes src d := by
  intro d
  induction d with
  | zero => simp [ballN]
  | succ d ih => simp only [ballN]; exact List.mem_append.2 (Or.inl ih)

theorem ballN_mono (nodes : List (Str × MemoryNode)) (src : Str) {d e : Nat}
    (h : d ≤ e) : ∀ i ∈ ballN nodes src d, i ∈ ballN nodes src e := by
  induction e with
  | zero =>
    intro i hi
    have : d = 0 := Nat.le_zero.1 h
    subst this; exact hi
  | succ e ih =>
    intro i hi
    rcases Nat.lt_or_ge d (e + 1) with hlt | hge
    · have hde : d ≤ e := Nat.lt_succ_iff.1 hlt
      simp only [ballN]
      exact List.mem_append.2 (Or.inl (ih hde i hi))
    · have : d = e + 1 := Nat.le_antisymm h hge
      subst this; exact hi

theorem mem_ballN_succ_of_assoc {nodes : List (Str × MemoryNode)} {src i j : Str}
    {d : Nat} {node : MemoryNode} (hi : i ∈ ballN nodes src d)
    (hlu : mlookup nodes i = some node) (hj : j ∈ node.associations) :
    j ∈ ballN nodes src (d + 1) := by
  simp only [ballN]
  refine List.mem_append.2 (Or.inr ?_)
  exact List.mem_flatMap.2 ⟨i, hi, by simp [neighborIds, hlu, hj]⟩

theorem nodup_append_singleton {α : Type} {l : List α} {a : α}
    (hl : l.Nodup) (ha : a ∉ l) : (l ++ [a]).Nodup := by
  simp [List.nodup_append, hl, ha]

namespace LongTermMemory

/-- Structural invariant of the traversal state: result ids are
distinct, recorded in the visited set, different from the root, and
name existing nodes. -/
def DfsInvA (nodes : List (Str × MemoryNode)) (root : Str)
    (st : List Str × List MemoryNode) : Prop :=
  (st.2.map (fun n => n.id)).Nodup ∧
  (∀ n ∈ st.2, n.id ∈ st.1) ∧
  (∀ n ∈ st.2, n.id ≠ root ∧ mcontains nodes n.id = true)

theorem dfsVisit_invA (nodes : List (Str × MemoryNode)) (root : Str)
    (hwf : WFNodes nodes) :
    ∀ b c st, DfsInvA nodes root st → DfsInvA nodes root (dfsVisit nodes root b c st) := by
  intro b
  induction b with
  | zero => intro c st h; simpa [dfsVisit] using h
  | succ b ih =>
    intro c st h
    simp only [dfsVisit]
    split
    · exact h
    · cases hl : mlookup nodes c with
      | none =>
        refine ⟨h.1, fun n hn => ?_, h.2.2⟩
        exact List.mem_append.2 (Or.inl (h.2.1 n hn))
      | some node =>
        rename_i hvis
        have hnotvis : c ∉ st.1 := hvis
        have hid : node.id = c := mlookup_id hwf hl
        have haux : ∀ (l : List Str) st', DfsInvA nodes root st' →
            DfsInvA nodes root
              (l.foldl (fun acc a => dfsVisit nodes root b a acc) st') := by
          intro l
          induction l with
          | nil => intro st' h'; simpa using h'
          | cons a l ihl =>
            intro st' h'
            simp only [List.foldl_cons]
            exact ihl _ (ih a st' h')
        apply haux
    -- invariant for the state right after visiting `c`
        constructor
        · -- nodup of result ids
          split
          · exact h.1
          · rename_i hroot
            simp only [List.map_append, List.map, hid]
            apply nodup_append_singleton h.1
            intro hcmem
            have : c ∈ st.1 := by
              rcases List.mem_map.1 hcmem with ⟨n, hn, hne⟩
              rw [← hne]
              exact h.2.1 n hn
            exact hnotvis this
        constructor
        · -- result ids recorded in visited
          split
          · intro n hn
            exact List.mem_append.2 (Or.inl (h.2.1 n hn))
          · intro n hn
            rcases List.mem_append.1 hn with hn | hn
            · exact List.mem_append.2 (Or.inl (h.2.1 n hn))
            · simp only [List.mem_singleton] at hn
              subst hn
              rw [hid]
              exact List.mem_append.2 (Or.inr (List.mem_singleton.2 rfl))
        · -- not root, existing
          split
          · exact h.2.2
          · rename_i hroot
            intro n hn
            rcases List.mem_append.1 hn with hn | hn
            · exact h.2.2 n hn
            · simp only [List.mem_singleton] at hn
              subst hn
              rw [hid]
              exact ⟨hroot, by simp [mcontains, hl]⟩

theorem dfsVisit_ball (nodes : List (Str × MemoryNode)) (root : Str) (D : Nat)
    (hwf : WFNodes nodes) :
    ∀ b c st j, j + b ≤ D + 1 → c ∈ ballN nodes root j →
      (∀ n ∈ st.2, n.id ∈ ballN nodes root D) →
      ∀ n ∈ (dfsVisit nodes root b c st).2, n.id ∈ ballN nodes root D := by
  intro b
  induction b with
  | zero => intro c st j h1 h2 h3; simpa [dfsVisit] using h3
  | succ b ih =>
    intro c st j h1 h2 h3
    simp only [dfsVisit]
    split
    · exact h3
    · cases hl : mlookup nodes c with
      | none => simpa using h3
      | some node =>
        have hjD : j ≤ D := by omega
        have hcD : c ∈ ballN nodes root D := ballN_mono nodes root hjD c h2
        have hres : ∀ n ∈ (if c = root then st.2 else st.2 ++ [node]),
            n.id ∈ ballN nodes root D := by
          split
          · exact h3
          · intro n hn
            rcases List.mem_append.1 hn with hn | hn
            · exact h3 n hn
            · simp only [List.mem_singleton] at hn
              subst hn
              rw [mlookup_id hwf hl]
              exact hcD
        have hch : ∀ a ∈ node.associations, a ∈ ballN nodes root (j + 1) :=
          fun a ha => mem_ballN_succ_of_assoc h2 hl ha
        have haux : ∀ (l : List Str), (∀ a ∈ l, a ∈ ballN nodes root (j + 1)) →
            ∀ st', (∀ n ∈ st'.2, n.id ∈ ballN nodes root D) →
            ∀ n ∈ (l.foldl (fun acc a => dfsVisit nodes root b a acc) st').2,
              n.id ∈ ballN nodes root D := by
          intro l
          induction l with
          | nil => intro _ st' h' n hn; exact h' n hn
          | cons a l ihl =>
            intro hal st' h'
            simp only [List.foldl_cons]
            exact ihl (fun x hx => hal x (List.mem_cons_of_mem a hx)) _
              (ih a st' (j + 1) (by omega) (hal a (List.mem_cons_self a l)) h')
        exact haux node.associations hch _ hres

end LongTermMemory

/-- Ids of the associated nodes inside a `get` response. -/
def assocIdsOf : MCPRes (MemoryNode × List MemoryNode) → Option (List Str)
  | .ok (_, l) => some (l.map (fun n => n.id))
  | .err _ => none

/-- The three-node line `A→B→C` of the specification's example, built
through the public `add` operation. -/
def lineState : LongTermMemory :=
  let s0 : LongTermMemory := { nodes := [], isDirty := false }
  let s1 := (s0.add (str "C") (str "t0") (str "node c") []).2
  let s2 := (s1.add (str "B") (str "t1") (str "node b") [str "C"]).2
  (s2.add (str "A") (str "t2") (str "node a") [str "B"]).2

/-- A four-node graph `A→{B,C}`, `B→C`, `C→D`, built through the
public `add` operation, on which the depth-first traversal first
reaches `C` at hop 2 (via `B`) and therefore never explores `C`'s own
edge to `D`. -/
def diamondState : LongTermMemory :=
  let s0 : LongTermMemory := { nodes := [], isDirty := false }
  let s1 := (s0.add (str "D") (str "t0") (str "node d") []).2
  let s2 := (s1.add (str "C") (str "t1") (str "node c") [str "D"]).2
  let s3 := (s2.add (str "B") (str "t2") (str "node b") [str "C"]).2
  (s3.add (str "A") (str "t3") (str "node a") [str "B", str "C"]).2

/-- C2 (counterexample): node `D` has minimal association-hop distance
2 from `A` (it lies in the 2-ball and is a distinct existing node),
yet `get("A", depth 2)` returns only `{B, C}` — the traversal is a
depth-first search whose visited set lets a longer path exhaust the
budget before a shorter one is tried, so a node reachable within
`depth` hops can be omitted, contradicting the claimed
minimal-distance characterization. -/
theorem get_depth_omits_reachable_node :
    (str "D") ∈ ballN diamondState.nodes (str "A") 2 ∧
    (str "D") ≠ (str "A") ∧
    mcontains diamondState.nodes (str "D") = true ∧
    assocIdsOf ((diamondState.get (str "A") (str "t4") (some 2)).1)
      = some [str "B", str "C"] := by decide

/-- C2 (amended): for every graph state, id and depth, the nodes
returned by the traversal are distinct existing nodes other than the
target, each within minimal hop distance `depth` of the target (so
between 1 and `depth`) — but a node within that distance may be
omitted when the depth-first order first approaches it along a longer
route; on the three-node line `A→B→C`, `get` at depth 1 yields `{B}`,
depth 2 yields `{B, C}`, and depth 0 yields `{}` as claimed. -/
theorem get_traversal_sound_and_examples :
    (∀ (nodes : List (Str × MemoryNode)) (root : Str) (d : Nat),
      WFNodes nodes →
      ((LongTermMemory.getAssociatedNodes nodes root d).map (fun n => n.id)).Nodup ∧
      (∀ n ∈ LongTermMemory.getAssociatedNodes nodes root d,
        n.id ≠ root ∧ mcontains nodes n.id = true ∧ n.id ∈ ballN nodes root d)) ∧
    (assocIdsOf ((lineState.get (str "A") (str "t3") (some 1)).1) = some [str "B"] ∧
     assocIdsOf ((lineState.get (str "A") (str "t3") (some 2)).1)
        = some [str "B", str "C"] ∧
     assocIdsOf ((lineState.get (str "A") (str "t3") (some 0)).1) = some []) := by
  constructor
  · intro nodes root d hwf
    have hA := LongTermMemory.dfsVisit_invA nodes root hwf (d + 1) root ([], [])
      (by simp [LongTermMemory.DfsInvA])
    have hB := LongTermMemory.dfsVisit_ball nodes root d hwf (d + 1) root ([], []) 0
      (by omega) (src_mem_ballN nodes root 0) (by simp)
    simp only [LongTermMemory.DfsInvA] at hA
    unfold LongTermMemory.getAssociatedNodes
    exact ⟨hA.1, fun n hn => ⟨(hA.2.2 n hn).1, (hA.2.2 n hn).2, hB n hn⟩⟩
  · exact ⟨by decide, by decide, by decide⟩

/-- Witness for C2's amended theorem: its general part applied to the
concrete four-node graph at depth 2 (well-formedness discharged by
computation). -/
theorem get_traversal_sound_and_examples_witness :
    ((LongTermMemory.getAssociatedNodes diamondState.nodes (str "A") 2).map
      (fun n => n.id)).Nodup := by
  exact (get_traversal_sound_and_examples.1 diamondState.nodes (str "A") 2
    (by decide)).1


/-! ## Claim C10 — `addThought` accepts cross-chain parents -/

/-- C10: `addThought` never checks that the supplied parent thought
belongs to the target chain: for an active chain and an existing
parent thought owned by a different chain, it succeeds, appends the
new id to the chain's `thoughts`, gives the new thought depth
`parent.reasoning_depth + 1` and a `previous_thought` link to the
foreign parent, and appends the new id to the foreign parent's
`next_thoughts` — silently linking thought lineage across chains. -/
theorem addThought_cross_chain_parent
    (s : ThinkingProcess) (thoughtId now chainId text : Str) (ty : ThoughtType)
    (pid : Str) (conf : Rat) (chain : ThoughtChain) (parent : ThoughtNode)
    (hc : mlookup s.chains chainId = some chain)
    (hact : chain.status = .active)
    (hp : mlookup s.thoughts pid = some parent)
    (_hforeign : parent.parent_chain ≠ chainId)
    (htext : strIsEmpty (trimStr text) = false)
    (hconf0 : 0 ≤ conf) (hconf1 : conf ≤ 1)
    (hpid : strIsEmpty pid = false)
    (hfresh : mcontains s.thoughts thoughtId = false) :
    (s.addThought thoughtId now chainId text ty (some pid) conf).1 = .ok thoughtId ∧
    (mlookup (s.addThought thoughtId now chainId text ty (some pid) conf).2.chains
        chainId).map (fun c => c.thoughts)
      = some (chain.thoughts ++ [thoughtId]) ∧
    (∃ t, mlookup (s.addThought thoughtId now chainId text ty (some pid) conf).2.thoughts
        thoughtId = some t ∧
      t.reasoning_depth = parent.reasoning_depth + 1 ∧
      t.previous_thought = some pid ∧ t.parent_chain = chainId) ∧
    (mlookup (s.addThought thoughtId now chainId text ty (some pid) conf).2.thoughts
        pid).map (fun t => t.next_thoughts)
      = some (parent.next_thoughts ++ [thoughtId]) := by
  have hne : pid ≠ thoughtId := by
    intro he
    subst he
    simp [mcontains, hp] at hfresh
  have hcont : mcontains s.thoughts pid = true := by simp [mcontains, hp]
  have htruthy : optTruthy (some pid) = true := by simp [optTruthy, hpid]
  have hnc : ¬ (conf < 0 ∨ 1 < conf) := by
    push_neg
    exact ⟨hconf0, hconf1⟩
  unfold ThinkingProcess.addThought
  rw [hc]
  simp only [htext, htruthy, hcont, Option.getD_some, hp, hnc, hact,
    Bool.false_eq_true, if_false, ite_false, reduceCtorEq, ne_eq,
    not_true_eq_false, Bool.true_and, not_false_eq_true, and_false,
    if_true]
  refine ⟨trivial, ?_, ?_, ?_⟩
  · rw [mlookup_mset_self]
    rfl
  · refine ⟨_, mlookup_mset_self _ _ _, rfl, rfl, rfl⟩
  · rw [mlookup_mset_ne _ _ _ _ (Ne.symm hne), mlookup_mset_self]
    rfl

/-- Rational literals in normalized form (kernel-reducible, unlike
`7 / 10`, whose `Rat.div` does not reduce during `decide`). -/
def conf07 : Rat := ⟨7, 10, by decide, by decide⟩

/-- `0.6` as a normalized rational. -/
def conf06 : Rat := ⟨3, 5, by decide, by decide⟩

/-- `0.5` as a normalized rational. -/
def conf05 : Rat := ⟨1, 2, by decide, by decide⟩

/-- The empty tracker state (fresh `ThinkingProcess` over a fresh
`LongTermMemory`). -/
def emptyTP : ThinkingProcess :=
  { chains := [], thoughts := [], currentMode := .analytical,
    longTermMemory := { nodes := [], isDirty := false } }

/-- An active chain `c2` with no thoughts. -/
def chainC2 : ThoughtChain :=
  { id := str "c2", goal := str "goal two", context := none,
    created_at := str "t1", completed_at := none, status := .active,
    thoughts := [], branches := [], cognitive_mode := .analytical }

/-- A root thought `p1` owned by chain `c1`. -/
def thoughtP1 : ThoughtNode :=
  { id := str "p1", text := str "parent thought", associations := [],
    metadata := { createdAt := str "t2", lastAccessed := str "t2", accessCount := 0 },
    type := .observation, confidence := conf07, status := .active,
    parent_chain := str "c1", previous_thought := none, next_thoughts := [],
    reasoning_depth := 0,
    thought_metadata := { thinking_time := 0, complexity := str "medium" } }

/-- A tracker holding chain `c2` and the foreign thought `p1` (owned
by the different chain `c1`). -/
def crossW : ThinkingProcess :=
  { chains := [(str "c2", chainC2)], thoughts := [(str "p1", thoughtP1)],
    currentMode := .analytical, longTermMemory := { nodes := [], isDirty := false } }

/-- Witness for C10 at a concrete input: adding a thought to chain
`c2` with the foreign parent `p1` (owned by `c1`) succeeds and links
the lineage across chains. -/
theorem addThought_cross_chain_parent_witness :
    (crossW.addThought (str "n1") (str "t3") (str "c2") (str "cross idea")
        .analysis (some (str "p1")) conf05).1 = .ok (str "n1") ∧
    (mlookup (crossW.addThought (str "n1") (str "t3") (str "c2") (str "cross idea")
        .analysis (some (str "p1")) conf05).2.thoughts (str "p1")).map
      (fun t => t.next_thoughts) = some [str "n1"] := by
  have h := addThought_cross_chain_parent crossW (str "n1") (str "t3") (str "c2")
    (str "cross idea") .analysis (str "p1") conf05 chainC2 thoughtP1
    (by decide) (by decide) (by decide) (by decide) (by decide)
    (by decide) (by decide) (by decide) (by decide)
  exact ⟨h.1, by simpa [thoughtP1] using h.2.2.2⟩

/-! ## Claim C3 — failures and partial writes -/

/-- A tracker with one active chain `c1` holding one thought `t1`,
built through the public operations. -/
def c3S : ThinkingProcess :=
  let s1 := (emptyTP.startThoughtProcess (str "c1") (str "t0")
    (str "solve the problem") none).2
  (s1.addThought (str "t1") (str "tt1") (str "c1") (str "first thought")
    .observation none conf07).2

/-- C3 (failing-input evaluation): two public operations fail *after*
mutating state.  `branchThought("t1", "")` returns failure (empty new
thought) yet leaves a freshly created empty branch chain `c2` in the
chain map and registered under `c1.branches`; and
`MemoryGraph.update(A, "new text", [missing])` returns failure
(unknown association) yet leaves `A`'s text already replaced.  Both
contradict the claimed no-partial-writes guarantee. -/
theorem branch_and_update_partial_writes :
    (((c3S.branchThought (str "c2") (str "n1") (str "t2") (str "t1") (str "")
        .hypothesis conf06).1).success = false ∧
      mcontains ((c3S.branchThought (str "c2") (str "n1") (str "t2") (str "t1")
        (str "") .hypothesis conf06).2).chains (str "c2") = true ∧
      (mlookup ((c3S.branchThought (str "c2") (str "n1") (str "t2") (str "t1")
        (str "") .hypothesis conf06).2).chains (str "c1")).map (fun c => c.branches)
        = some [str "c2"] ∧
      (mlookup c3S.chains (str "c1")).map (fun c => c.branches) = some []) ∧
    (let g1 := (({ nodes := [], isDirty := false } : LongTermMemory).add
        (str "A") (str "t") (str "old text") []).2
     ((g1.update (str "A") (str "t2") (some (str "new text"))
        (some [str "missing"])).1).success = false ∧
     (mlookup (g1.update (str "A") (str "t2") (some (str "new text"))
        (some [str "missing"])).2.nodes (str "A")).map (fun n => n.text)
        = some (str "new text") ∧
     (mlookup g1.nodes (str "A")).map (fun n => n.text) = some (str "old text")) := by
  exact ⟨⟨by decide, by decide, by decide, by decide⟩, by decide, by decide, by decide⟩

/-! ## Claim C7 — chain status transitions -/

/-- A chain started and then completed through the public operations. -/
def c7Completed : ThinkingProcess :=
  let s1 := (emptyTP.startThoughtProcess (str "c1") (str "t0")
    (str "reach a goal") none).2
  (s1.completeThoughtProcess (str "t1") (str "m1") (str "c1") (str "all done")).2

/-- C7 (counterexample): `completed` is not terminal — `pauseThinking`
has no status guard, so pausing a completed chain succeeds and moves
its status to `paused`. -/
theorem completed_chain_can_be_paused :
    (mlookup c7Completed.chains (str "c1")).map (fun c => c.status)
      = some ChainStatus.completed ∧
    (c7Completed.pauseThinking (str "c1") (str "interrupt")).1 = .ok () ∧
    (mlookup (c7Completed.pauseThinking (str "c1") (str "interrupt")).2.chains
        (str "c1")).map (fun c => c.status) = some ChainStatus.paused := by
  exact ⟨by decide, by decide, by decide⟩

/-- `addThought` never changes the status of any chain: whether it
fails or succeeds, every chain present before and after the call keeps
its status (a successful call only appends to the target chain's
`thoughts`). -/
theorem addThought_chains_status (s : ThinkingProcess)
    (thoughtId now chainId text : Str) (ty : ThoughtType) (pid : Option Str)
    (conf : Rat) (cid : Str) (ch ch' : ThoughtChain)
    (hb : mlookup s.chains cid = some ch)
    (ha : mlookup (s.addThought thoughtId now chainId text ty pid conf).2.chains cid
      = some ch') : ch'.status = ch.status := by
  unfold ThinkingProcess.addThought at ha
  split at ha
  · rw [hb] at ha
    cases ha
    rfl
  · rename_i chain0 heq0
    split at ha
    · rw [hb] at ha; cases ha; rfl
    · split at ha
      · rw [hb] at ha; cases ha; rfl
      · split at ha
        · rw [hb] at ha; cases ha; rfl
        · split at ha
          · rw [hb] at ha; cases ha; rfl
          · dsimp only at ha
            rw [mlookup_mset] at ha
            split at ha
            · rename_i hcc
              subst hcc
              rw [hb] at heq0
              cases heq0
              cases ha
              rfl
            · rw [hb] at ha; cases ha; rfl

/-- C7 (amended): the status transitions realisable by the tracker's
public operations are: any status → `paused` via `pauseThinking`, any
status → `completed` via `completeThoughtProcess` (with a valid
conclusion), and `paused` → `active` via `resumeThinking`; every other
operation leaves every chain's status unchanged.  In particular
`completed` is *not* terminal — a completed chain can be paused (and a
paused chain completed).  The freshness hypothesis records that the
`uuidv4()` ids handed to the chain-creating operations are not
existing chain keys. -/
theorem chain_status_transitions
    (s : ThinkingProcess) (op : TPOp) (cid : Str) (ch ch' : ThoughtChain)
    (hfresh : op.chainIdsFresh s)
    (hbefore : mlookup s.chains cid = some ch)
    (hafter : mlookup (op.apply s).chains cid = some ch') :
    ch'.status = ch.status ∨
    (ch'.status = .paused ∧ ∃ reason, op = .pauseOp cid reason) ∨
    (ch'.status = .completed ∧ ∃ now sid conc, op = .completeOp now sid cid conc) ∨
    (ch.status = .paused ∧ ch'.status = .active ∧ op = .resumeOp cid) := by
  cases op with
  | startOp chainId now goal context =>
    simp only [TPOp.chainIdsFresh] at hfresh
    have hne : chainId ≠ cid := by
      intro he
      subst he
      simp [mcontains, hbefore] at hfresh
    simp only [TPOp.apply] at hafter
    unfold ThinkingProcess.startThoughtProcess at hafter
    split at hafter
    · rw [hbefore] at hafter; cases hafter; exact Or.inl rfl
    · dsimp only at hafter
      rw [mlookup_mset_ne _ _ _ _ hne, hbefore] at hafter
      cases hafter
      exact Or.inl rfl
  | addThoughtOp thoughtId now chainId thought ty pid conf =>
    exact Or.inl (addThought_chains_status s thoughtId now chainId thought ty pid
      conf cid ch ch' hbefore hafter)
  | branchOp bcid ntid now tid newThought ty conf =>
    simp only [TPOp.chainIdsFresh] at hfresh
    have hne : bcid ≠ cid := by
      intro he
      subst he
      simp [mcontains, hbefore] at hfresh
    simp only [TPOp.apply] at hafter
    unfold ThinkingProcess.branchThought at hafter
    split at hafter
    · rw [hbefore] at hafter; cases hafter; exact Or.inl rfl
    · rename_i origThought heqT
      split at hafter
      · rw [hbefore] at hafter; cases hafter; exact Or.inl rfl
      · rename_i chain heqC
        dsimp only at hafter
        have hmid :
            ∃ chm, mlookup
              (if origThought.parent_chain = bcid then mset s.chains bcid
                  { id := bcid,
                    goal := str "Branch from: " ++ takeStr origThought.text 50 ++ str "...",
                    context := some chain.goal, created_at := now, completed_at := none,
                    status := .active, thoughts := [], branches := [],
                    cognitive_mode := s.currentMode }
                else mset (mset s.chains bcid
                  { id := bcid,
                    goal := str "Branch from: " ++ takeStr origThought.text 50 ++ str "...",
                    context := some chain.goal, created_at := now, completed_at := none,
                    status := .active, thoughts := [], branches := [],
                    cognitive_mode := s.currentMode }) origThought.parent_chain
                  { chain with branches := chain.branches ++ [bcid] }) cid
                = some chm ∧
              chm.status = ch.status := by
          split
          · exact ⟨ch, by rw [mlookup_mset_ne _ _ _ _ hne]; exact hbefore, rfl⟩
          · by_cases hpc : origThought.parent_chain = cid
            · refine ⟨{ chain with branches := chain.branches ++ [bcid] }, ?_, ?_⟩
              · rw [hpc, mlookup_mset_self]
              · rw [hpc] at heqC
                rw [hbefore] at heqC
                cases heqC
                rfl
            · refine ⟨ch, ?_, rfl⟩
              rw [mlookup_mset_ne _ _ _ _ hpc, mlookup_mset_ne _ _ _ _ hne]
              exact hbefore
        obtain ⟨chm, hchm, hst⟩ := hmid
        have := addThought_chains_status _ ntid now bcid newThought ty none conf
          cid chm ch' hchm hafter
        exact Or.inl (this.trans hst)
  | evaluateOp now tid conf reasoning =>
    simp only [TPOp.apply] at hafter
    unfold ThinkingProcess.evaluateThought at hafter
    split at hafter
    · rw [hbefore] at hafter; cases hafter; exact Or.inl rfl
    · split at hafter
      · rw [hbefore] at hafter; cases hafter; exact Or.inl rfl
      · dsimp only at hafter
        rw [hbefore] at hafter; cases hafter; exact Or.inl rfl
  | completeOp now sid chainId conclusion =>
    simp only [TPOp.apply] at hafter
    unfold ThinkingProcess.completeThoughtProcess at hafter
    split at hafter
    · rw [hbefore] at hafter; cases hafter; exact Or.inl rfl
    · rename_i chain heqC
      split at hafter
      · rw [hbefore] at hafter; cases hafter; exact Or.inl rfl
      · dsimp only at hafter
        rw [mlookup_mset] at hafter
        split at hafter
        · rename_i hcc
          subst hcc
          cases hafter
          exact Or.inr (Or.inr (Or.inl ⟨rfl, now, sid, conclusion, rfl⟩))
        · rw [hbefore] at hafter; cases hafter; exact Or.inl rfl
  | pauseOp chainId reason =>
    simp only [TPOp.apply] at hafter
    unfold ThinkingProcess.pauseThinking at hafter
    split at hafter
    · rw [hbefore] at hafter; cases hafter; exact Or.inl rfl
    · dsimp only at hafter
      rw [mlookup_mset] at hafter
      split at hafter
      · rename_i hcc
        subst hcc
        cases hafter
        exact Or.inr (Or.inl ⟨rfl, reason, rfl⟩)
      · rw [hbefore] at hafter; cases hafter; exact Or.inl rfl
  | resumeOp chainId =>
    simp only [TPOp.apply] at hafter
    unfold ThinkingProcess.resumeThinking at hafter
    split at hafter
    · rw [hbefore] at hafter; cases hafter; exact Or.inl rfl
    · rename_i chain heqC
      split at hafter
      · rw [hbefore] at hafter; cases hafter; exact Or.inl rfl
      · rename_i hguard
        dsimp only at hafter
        rw [mlookup_mset] at hafter
        split at hafter
        · rename_i hcc
          subst hcc
          rw [hbefore] at heqC
          cases heqC
          cases hafter
          have hps : ch.status = .paused := by
            by_contra hno
            exact hguard hno
          exact Or.inr (Or.inr (Or.inr ⟨hps, rfl, rfl⟩))
        · rw [hbefore] at hafter; cases hafter; exact Or.inl rfl
  | switchModeOp mode chainId =>
    simp only [TPOp.apply] at hafter
    unfold ThinkingProcess.switchCognitiveMode at hafter
    dsimp only at hafter
    split at hafter
    · split at hafter
      · rw [hbefore] at hafter; cases hafter; exact Or.inl rfl
      · rename_i chain heqC
        dsimp only at hafter
        rw [mlookup_mset] at hafter
        split at hafter
        · rename_i hcc
          subst hcc
          rw [hbefore] at heqC
          cases heqC
          cases hafter
          exact Or.inl rfl
        · rw [hbefore] at hafter; cases hafter; exact Or.inl rfl
    · rw [hbefore] at hafter; cases hafter; exact Or.inl rfl

/-- Chain `c2` after being paused with reason `"why"`. -/
def pausedC2 : ThoughtChain :=
  { chainC2 with status := .paused, context := some (str "\n[Paused: why]") }

/-- Witness for C7's amended theorem: pausing chain `c2` of the
concrete tracker state yields exactly the `pauseThinking` disjunct. -/
theorem chain_status_transitions_witness :
    pausedC2.status = chainC2.status ∨
    (pausedC2.status = .paused ∧
      ∃ reason, TPOp.pauseOp (str "c2") (str "why") = TPOp.pauseOp (str "c2") reason) ∨
    (pausedC2.status = .completed ∧
      ∃ now sid conc,
        TPOp.pauseOp (str "c2") (str "why") = TPOp.completeOp now sid (str "c2") conc) ∨
    (chainC2.status = .paused ∧ pausedC2.status = .active ∧
      TPOp.pauseOp (str "c2") (str "why") = TPOp.resumeOp (str "c2")) := by
  exact chain_status_transitions crossW (TPOp.pauseOp (str "c2") (str "why"))
    (str "c2") chainC2 pausedC2 trivial (by decide) (by decide)

/-! ## Claim C4 — completing a chain and the doomed summary-node write -/

/-- Characterization of the thought-flipping loop of
`completeThoughtProcess`: a thought's entry is set to `completed`
exactly when its id is in the processed list and it was `active`;
every other entry is untouched. -/
theorem flipCompleted_lookup :
    ∀ (ids : List Str) (m : List (Str × ThoughtNode)) (k : Str),
    mlookup (ThinkingProcess.flipCompleted m ids) k =
      match mlookup m k with
      | some t => some (if k ∈ ids ∧ t.status = .active
          then { t with status := .completed } else t)
      | none => none := by
  intro ids
  induction ids with
  | nil =>
    intro m k
    cases h : mlookup m k <;> simp [ThinkingProcess.flipCompleted, h]
  | cons tid rest ih =>
    intro m k
    simp only [ThinkingProcess.flipCompleted]
    cases htid : mlookup m tid with
    | none =>
      rw [ih m k]
      cases hk : mlookup m k with
      | none => rfl
      | some t =>
        have hkt : k ≠ tid := by
          intro he; subst he; rw [hk] at htid; cases htid
        simp [List.mem_cons, hkt]
    | some t =>
      by_cases hact : t.status = ThoughtStatus.active
      · simp only [hact, if_true]
        rw [ih _ k]
        by_cases hkt : k = tid
        · subst hkt
          rw [mlookup_mset_self, htid]
          simp [hact]
        · rw [mlookup_mset_ne _ _ _ _ (fun h => hkt h.symm)]
          cases hk : mlookup m k with
          | none => rfl
          | some u => simp [List.mem_cons, hkt]
      · simp only [hact, if_false]
        rw [ih m k]
        by_cases hkt : k = tid
        · subst hkt
          rw [htid]
          simp [hact]
        · cases hk : mlookup m k with
          | none => rfl
          | some u => simp [List.mem_cons, hkt]

/-- C4: for every existing chain and non-empty conclusion,
`completeThoughtProcess` returns success, marks the chain `completed`
with `completedAt` set, flips exactly that chain's own active thoughts
to `completed`, and then calls `MemoryGraph.add` with
`"thought:<id>"`-tagged associations: when the chain has at least one
thought that call fails (no such tag is a graph node id, since real
node ids are uuids — recorded by the `htags` hypothesis) and the graph
is left completely unchanged; when the chain has no thoughts the call
succeeds and adds exactly the summary node under the fresh uuid
`sid`. -/
theorem completeThoughtProcess_spec
    (s : ThinkingProcess) (now sid chainId conclusion : Str) (ch : ThoughtChain)
    (hc : mlookup s.chains chainId = some ch)
    (hconc : strIsEmpty (trimStr conclusion) = false)
    (htags : ∀ t ∈ ch.thoughts,
      mcontains s.longTermMemory.nodes (str "thought:" ++ t) = false)
    (hsid : mcontains s.longTermMemory.nodes sid = false) :
    (s.completeThoughtProcess now sid chainId conclusion).1 = .ok () ∧
    (∃ ch', mlookup (s.completeThoughtProcess now sid chainId conclusion).2.chains
        chainId = some ch' ∧ ch'.status = .completed ∧ ch'.completed_at = some now ∧
        ch'.thoughts = ch.thoughts) ∧
    (∀ tid th, mlookup s.thoughts tid = some th →
      mlookup (s.completeThoughtProcess now sid chainId conclusion).2.thoughts tid
        = some (if tid ∈ ch.thoughts ∧ th.status = .active
            then { th with status := .completed } else th)) ∧
    (ch.thoughts ≠ [] →
      (s.completeThoughtProcess now sid chainId conclusion).2.longTermMemory
        = s.longTermMemory) ∧
    (ch.thoughts = [] →
      (s.completeThoughtProcess now sid chainId conclusion).2.longTermMemory.nodes.length
        = s.longTermMemory.nodes.length + 1 ∧
      mcontains (s.completeThoughtProcess now sid chainId conclusion).2.longTermMemory.nodes
        sid = true) := by
  unfold ThinkingProcess.completeThoughtProcess
  rw [hc]
  simp only [hconc, Bool.false_eq_true, if_false]
  refine ⟨trivial, ?_, ?_, ?_, ?_⟩
  · exact ⟨_, mlookup_mset_self _ _ _, rfl, rfl, rfl⟩
  · intro tid th hth
    rw [flipCompleted_lookup, hth]
  · intro hne
    cases hts : ch.thoughts with
    | nil => exact absurd hts hne
    | cons t0 rest =>
      unfold LongTermMemory.add
      have hbad : LongTermMemory.firstUnknown s.longTermMemory.nodes
          ((t0 :: rest).map (fun tid => str "thought:" ++ tid)) = some (str "thought:" ++ t0) := by
        have h0 : mcontains s.longTermMemory.nodes (str "thought:" ++ t0) = false := by
          apply htags
          rw [hts]
          exact List.mem_cons_self _ _
        simp [LongTermMemory.firstUnknown, h0]
      split
      · rfl
      · rw [hbad]
  · intro hts
    rw [hts]
    unfold LongTermMemory.add
    have hmem : '[' ∈ str "[Thought Chain] " ++ ch.goal
        ++ str "\nConclusion: " ++ conclusion :=
      List.mem_append.2 (Or.inl (List.mem_append.2 (Or.inl
        (List.mem_append.2 (Or.inl (by decide))))))
    have hne2 : strIsEmpty (trimStr (str "[Thought Chain] " ++ ch.goal
        ++ str "\nConclusion: " ++ conclusion)) = false :=
      strIsEmpty_trimStr_false hmem (by decide)
    simp only [List.map_nil, hne2, Bool.false_eq_true, if_false,
      LongTermMemory.firstUnknown]
    constructor
    · rw [mset_eq_append _ _ _ (mlookup_eq_none_of_mcontains_false hsid)]
      simp
    · simp [mcontains, mlookup_mset_self]

/-- A tracker with one active, thought-less chain `c1`. -/
def c4S : ThinkingProcess :=
  (emptyTP.startThoughtProcess (str "c1") (str "t0") (str "ship it") none).2

/-- The chain record `startThoughtProcess` creates for `c4S`. -/
def c4Chain : ThoughtChain :=
  { id := str "c1", goal := str "ship it", context := none,
    created_at := str "t0", completed_at := none, status := .active,
    thoughts := [], branches := [], cognitive_mode := .analytical }

/-- Witness for C4 at a concrete input: completing the thought-less
chain `c1` succeeds and does add the summary node (the empty-chain
case of the claim). -/
theorem completeThoughtProcess_spec_witness :
    (c4S.completeThoughtProcess (str "t1") (str "m1") (str "c1") (str "done")).1
      = .ok () ∧
    (c4S.completeThoughtProcess (str "t1") (str "m1") (str "c1")
        (str "done")).2.longTermMemory.nodes.length = 1 ∧
    mcontains (c4S.completeThoughtProcess (str "t1") (str "m1") (str "c1")
        (str "done")).2.longTermMemory.nodes (str "m1") = true := by
  have h := completeThoughtProcess_spec c4S (str "t1") (str "m1") (str "c1")
    (str "done") c4Chain (by decide) (by decide) (by decide) (by decide)
  exact ⟨h.1, by simpa using (h.2.2.2.2 rfl).1, (h.2.2.2.2 rfl).2⟩

/-! ## Claim C8 — save's lock-file protocol -/

/-- C8: (1) if a lock file exists with age under five minutes, `save`
reports "locked" and changes nothing (in particular it writes nothing
to the primary file); (2) if the lock is older than five minutes it is
removed as stale and (the write succeeding) the save succeeds, writing
the snapshot; (3) on every exit path other than the "locked" failure —
success or write failure — no lock file remains afterwards, so no lock
created by this call survives it. -/
theorem storage_save_lock_protocol
    (fs : FsState) (now : Nat) (enableBackup : Bool) (dat : Str) (writeOk : Bool) :
    (∀ m, fs.lockMtime = some m → now - m < StorageManager.staleMs →
      (StorageManager.save fs now enableBackup dat writeOk).1
        = .err (str "Storage is locked by another process") ∧
      (StorageManager.save fs now enableBackup dat writeOk).2 = fs) ∧
    (∀ m, fs.lockMtime = some m → now - m > StorageManager.staleMs →
      writeOk = true →
      (StorageManager.save fs now enableBackup dat writeOk).1 = .ok () ∧
      (StorageManager.save fs now enableBackup dat writeOk).2.memoryFile = some dat) ∧
    ((StorageManager.save fs now enableBackup dat writeOk).1
        ≠ .err (str "Storage is locked by another process") →
      (StorageManager.save fs now enableBackup dat writeOk).2.lockMtime = none) := by
  refine ⟨?_, ?_, ?_⟩
  · intro m hm hage
    have hnot : ¬ (now - m > StorageManager.staleMs) := by omega
    simp only [StorageManager.save, StorageManager.isLocked, hm, hnot, if_false]
    exact ⟨rfl, rfl⟩
  · intro m hm hage hw
    subst hw
    simp only [StorageManager.save, StorageManager.isLocked,
      StorageManager.savePhase2, hm, hage, if_true]
    exact ⟨rfl, rfl⟩
  · simp only [StorageManager.save, StorageManager.isLocked]
    cases hm : fs.lockMtime with
    | none =>
      intro _
      simp only [StorageManager.savePhase2]
      split
      · rename_i hff
        simp at hff
      · split
        · rfl
        · rfl
    | some m =>
      by_cases hage : now - m > StorageManager.staleMs
      · simp only [hage, if_true]
        intro _
        simp only [StorageManager.savePhase2]
        split
        · rename_i hff
          simp at hff
        · split
          · rfl
          · rfl
      · simp only [hage, if_false]
        intro hres
        exact absurd rfl hres

/-- Witness for C8 at the specification's stale-lock scenario: a lock
six minutes old is cleared, the save succeeds and writes the snapshot,
and no lock remains. -/
theorem storage_save_lock_protocol_witness :
    (StorageManager.save
        { memoryFile := none, backupFile := none, lockMtime := some 0 }
        360000 true (str "snapshot") true).1 = .ok () ∧
    (StorageManager.save
        { memoryFile := none, backupFile := none, lockMtime := some 0 }
        360000 true (str "snapshot") true).2.memoryFile = some (str "snapshot") ∧
    (StorageManager.save
        { memoryFile := none, backupFile := none, lockMtime := some 0 }
        360000 true (str "snapshot") true).2.lockMtime = none := by
  have h := storage_save_lock_protocol
    { memoryFile := none, backupFile := none, lockMtime := some 0 }
    360000 true (str "snapshot") true
  refine ⟨(h.2.1 0 rfl (by decide) rfl).1, (h.2.1 0 rfl (by decide) rfl).2, ?_⟩
  exact h.2.2 (by rw [(h.2.1 0 rfl (by decide) rfl).1]; intro hcon; cases hcon)
